import Mathlib

/-!
Shallow embedding of the Session Tracker application (src/app.py).

The app is a Streamlit UI over a Firestore backend.  The backend state is
modelled explicitly as a `Store` value; every Firestore call becomes a pure
function on `Store`.  Python floats (hours, rates, amounts) are modelled as
rationals, which is exact for all quantities the app manipulates here.
Calendar dates are modelled by their proleptic Gregorian ordinal (the same
day numbering Python's datetime.date.toordinal uses), so that
date.weekday() is day-number arithmetic mod 7 and the stored
"YYYY-MM-DD" strings correspond one-to-one to ordinals.
All text processing is done on character lists by structural recursion,
mirroring str.strip / str.split on the inputs the app receives.
-/

/-- Whitespace test used by trimming, covering the characters Python's
str.strip removes on the inputs in question. -/
def isSpaceChar (c : Char) : Bool :=
  c = ' ' || c = '\t' || c = '\n' || c = '\r'

/-- Model of Python str.strip: drop whitespace from both ends. -/
def trimChars (l : List Char) : List Char :=
  ((l.dropWhile isSpaceChar).reverse.dropWhile isSpaceChar).reverse

/-- Model of Python str.split(sep) for a one-character separator:
splitting an empty string yields one empty field, and each occurrence of
the separator starts a new field. -/
def splitOnChar (sep : Char) : List Char → List (List Char)
  | [] => [[]]
  | c :: rest =>
    let r := splitOnChar sep rest
    if c = sep then [] :: r
    else
      match r with
      | [] => [[c]]
      | p :: ps => (c :: p) :: ps

/-- Parse a nonempty all-digit character list as a natural number
(int-literal parsing, leading zeros allowed). -/
def parseNatChars (l : List Char) : Option Nat :=
  if l ≠ [] ∧ l.all (fun c => '0' ≤ c ∧ c ≤ '9') then
    some (l.foldl (fun acc c => acc * 10 + (c.toNat - 48)) 0)
  else none

/-- Model of Python float() restricted to the plain decimal literals the
app's inputs use: an optional minus sign, digits, and an optional
fractional part with digits on both sides of the point. -/
def parseRatChars (l : List Char) : Option ℚ :=
  match l with
  | '-' :: rest =>
    (match splitOnChar '.' rest with
     | [ip] => (parseNatChars ip).map (fun n => -(n : ℚ))
     | [ip, fp] =>
       match parseNatChars ip, parseNatChars fp with
       | some a, some b => some (-((a : ℚ) + (b : ℚ) / (10 : ℚ) ^ fp.length))
       | _, _ => none
     | _ => none)
  | _ =>
    match splitOnChar '.' l with
    | [ip] => (parseNatChars ip).map (fun n => (n : ℚ))
    | [ip, fp] =>
      match parseNatChars ip, parseNatChars fp with
      | some a, some b => some ((a : ℚ) + (b : ℚ) / (10 : ℚ) ^ fp.length)
      | _, _ => none
    | _ => none

/-- Gregorian leap-year test. -/
def isLeapYear (y : Nat) : Bool :=
  y % 4 = 0 && (y % 100 ≠ 0 || y % 400 = 0)

/-- Number of days in month m of year y (months numbered 1..12). -/
def daysInMonth (y m : Nat) : Nat :=
  if m = 2 then (if isLeapYear y then 29 else 28)
  else if m = 4 ∨ m = 6 ∨ m = 9 ∨ m = 11 then 30
  else 31

/-- Days in all years strictly before year y (Python datetime's
_days_before_year). -/
def daysBeforeYear (y : Nat) : Nat :=
  (y - 1) * 365 + (y - 1) / 4 - (y - 1) / 100 + (y - 1) / 400

/-- Days in year y strictly before month m. -/
def daysBeforeMonth (y m : Nat) : Nat :=
  ((List.range (m - 1)).map (fun i => daysInMonth y (i + 1))).sum

/-- Proleptic Gregorian ordinal of a calendar date, as in Python's
date.toordinal: ymd2ord 1 1 1 = 1. -/
def ymd2ord (y m d : Nat) : Nat :=
  daysBeforeYear y + daysBeforeMonth y m + d

/-- Day of week of an ordinal, numbered as Python's date.weekday():
Monday = 0 .. Sunday = 6 (ordinal 1 is a Monday). -/
def weekday (ord : Nat) : Fin 7 :=
  ⟨(ord + 6) % 7, by omega⟩

/-- Model of pd.to_datetime followed by strftime("%Y-%m-%d"), restricted
to the ISO "YYYY-MM-DD" shape the app's documented import format uses:
returns the date's ordinal when the fields form a valid calendar date. -/
def parse_date_chars (l : List Char) : Option Nat :=
  match splitOnChar '-' l with
  | [ys, ms, ds] =>
    match parseNatChars ys, parseNatChars ms, parseNatChars ds with
    | some y, some m, some d =>
      if 1 ≤ y ∧ y ≤ 9999 ∧ 1 ≤ m ∧ m ≤ 12 ∧ 1 ≤ d ∧ d ≤ daysInMonth y m then
        some (ymd2ord y m d)
      else none
    | _, _, _ => none
  | _ => none

/-- Per-account preferences record (Firestore collection "preferences"),
as read and written by load_preferences / save_preferences. -/
structure Prefs where
  academies : List String
  groups : List String
  default_rate : ℚ
deriving DecidableEq

/-- A stored session document (Firestore collection "sessions"):
the fields written by the app's handlers plus the owning user's email
added by save_session. -/
structure Session where
  user_email : String
  academy : String
  group : String
  date : Nat
  hours : ℚ
  rate : ℚ
  amount : ℚ
  notes : String
deriving DecidableEq

/-- The session fields a form handler assembles before persisting
(everything except the user email that save_session adds). -/
structure SessionForm where
  academy : String
  group : String
  date : Nat
  hours : ℚ
  rate : ℚ
  amount : ℚ
  notes : String
deriving DecidableEq

/-- The Firestore backend state: session documents keyed by id (document
ids are modelled as consecutive naturals issued by the store), and the
per-email preferences documents. -/
structure Store where
  sessions : List (Nat × Session)
  next_id : Nat
  preferences : List (String × Prefs)
deriving DecidableEq

/-- The empty backend. -/
def store0 : Store := ⟨[], 0, []⟩

/-- Attach the owning user's email to a form record, as save_session does
with session_data['user_email'] = email. -/
def mkSession (email : String) (f : SessionForm) : Session :=
  ⟨email, f.academy, f.group, f.date, f.hours, f.rate, f.amount, f.notes⟩

/-- app.py save_session (lines 80-84): add a new session document with a
fresh id; no validation happens here. -/
def save_session (st : Store) (email : String) (f : SessionForm) : Store :=
  { st with
    sessions := st.sessions ++ [(st.next_id, mkSession email f)]
    next_id := st.next_id + 1 }

/-- app.py update_session (lines 87-89): Firestore document(id).update
replaces the given fields of an existing document and raises NotFound when
the document does not exist; the user_email field is not in the update
payload and is kept. -/
def update_session (st : Store) (id : Nat) (f : SessionForm) : Except String Store :=
  if st.sessions.any (fun p => p.1 = id) then
    Except.ok
      { st with
        sessions := st.sessions.map (fun p => if p.1 = id then (p.1, mkSession p.2.user_email f) else p) }
  else Except.error "NotFound"

/-- app.py delete_session (lines 92-94): Firestore document(id).delete is
idempotent — it removes the document when present and raises nothing when
it is absent. -/
def delete_session (st : Store) (id : Nat) : Except String Store :=
  Except.ok { st with sessions := st.sessions.filter (fun p => p.1 ≠ id) }

/-- app.py load_preferences (lines 105-111): read the preferences document
for the email; when it does not exist return the defaults.  The returned
Store component makes the effect on the backend explicit: the function
only performs a read. -/
def load_preferences (st : Store) (email : String) : Prefs × Store :=
  match st.preferences.lookup email with
  | some p => (p, st)
  | none => (⟨[], [], 200⟩, st)

/-- app.py sidebar "add_session" form handler (lines 234-250): save the
session with amount = hours * rate when academy and group are both
nonempty, otherwise report a validation error and save nothing. -/
def add_session_submit (st : Store) (email academy group : String) (session_date : Nat)
    (hours rate : ℚ) (notes : String) : Except String Store :=
  if academy ≠ "" ∧ group ≠ "" then
    Except.ok (save_session st email ⟨academy, group, session_date, hours, rate, hours * rate, notes⟩)
  else Except.error "⚠️ Fill required fields!"

/-- app.py "edit_session_form" handler (lines 759-775): on save, when
academy and group are nonempty, replace the record's fields with the
edited values and amount recomputed as hours * rate; otherwise report a
validation error. -/
def edit_session_submit (st : Store) (id : Nat) (academy group : String) (edit_date : Nat)
    (hours rate : ℚ) (notes : String) : Except String Store :=
  if academy ≠ "" ∧ group ≠ "" then
    update_session st id ⟨academy, group, edit_date, hours, rate, hours * rate, notes⟩
  else Except.error "⚠️ Fill required fields!"

/-- app.py weekly schedule generation loop (lines 570-584): for each week
and each day 0..6 of that week, keep the date when its weekday is in the
selected set. -/
def weekly_dates (start_date num_weeks : Nat) (days_selected : Finset (Fin 7)) : List Nat :=
  (List.range num_weeks).flatMap (fun week =>
    ((List.range 7).map (fun day_num => start_date + (day_num + week * 7))).filter
      (fun check_date => weekday check_date ∈ days_selected))

/-- Session records assembled by the weekly schedule loop: one per kept
date, each with the shared academy, group, hours, rate, notes and
amount = hours * rate. -/
def weekly_session_forms (academy group : String) (hours rate : ℚ) (notes : String)
    (start_date num_weeks : Nat) (days_selected : Finset (Fin 7)) : List SessionForm :=
  (weekly_dates start_date num_weeks days_selected).map
    (fun d => ⟨academy, group, d, hours, rate, hours * rate, notes⟩)

/-- app.py "weekly_schedule" form handler (lines 565-590): when academy,
group and the day selection are all nonempty, persist every generated
session in order; otherwise report a validation error and save nothing. -/
def weekly_schedule_submit (st : Store) (email academy group : String) (hours rate : ℚ)
    (notes : String) (start_date num_weeks : Nat) (days_selected : Finset (Fin 7)) :
    Except String Store :=
  if academy ≠ "" ∧ group ≠ "" ∧ days_selected ≠ ∅ then
    Except.ok
      ((weekly_session_forms academy group hours rate notes start_date num_weeks days_selected).foldl
        (fun s f => save_session s email f) st)
  else Except.error "⚠️ Fill all required fields and select at least one day!"

/-- One row of the "Multiple Sessions" bulk form. -/
structure TupleEntry where
  academy : String
  group : String
  hours : ℚ
  rate : ℚ
deriving DecidableEq

/-- app.py "multiple_sessions" form handler (lines 648-668): keep exactly
the rows whose academy and group are both nonempty; when at least one row
remains, persist each kept row with the shared date, amount = hours * rate
and empty notes; otherwise report an error and save nothing.  Dropped rows
produce no per-row message. -/
def multiple_sessions_submit (st : Store) (email : String) (ms_date : Nat)
    (entries : List TupleEntry) : Except String Store :=
  let valid := entries.filter (fun t => t.academy ≠ "" ∧ t.group ≠ "")
  if valid ≠ [] then
    Except.ok
      (valid.foldl
        (fun s t => save_session s email ⟨t.academy, t.group, ms_date, t.hours, t.rate, t.hours * t.rate, ""⟩)
        st)
  else Except.error "⚠️ Fill academy and group for at least one session!"

/-- One line of the text importer (app.py lines 691-708): split on commas,
trim each field, require at least 5 fields, parse date / hours / rate, and
build the record with amount = hours * rate and field 6 as notes when
present.  A failed parse yields a single error for the line (the app
records str(e) of the raised exception; the message text is modelled). -/
def text_import_line (line : List Char) : Except String SessionForm :=
  let parts := (splitOnChar ',' line).map trimChars
  if parts.length ≥ 5 then
    match parse_date_chars (parts.getD 0 []), parseRatChars (parts.getD 3 []),
        parseRatChars (parts.getD 4 []) with
    | some d, some hrs, some rt =>
      Except.ok ⟨⟨parts.getD 1 []⟩, ⟨parts.getD 2 []⟩, d, hrs, rt, hrs * rt, ⟨parts.getD 5 []⟩⟩
    | _, _, _ => Except.error "could not parse fields"
  else Except.error "Not enough fields"

/-- One step of the text importer's loop: a parsed line is persisted
immediately and counted; a failed line appends one line-indexed error
message and continues. -/
def text_import_step (email : String) (acc : Store × Nat × List String)
    (p : Nat × List Char) : Store × Nat × List String :=
  match text_import_line p.2 with
  | Except.ok f => (save_session acc.1 email f, acc.2.1 + 1, acc.2.2)
  | Except.error msg =>
    (acc.1, acc.2.1, acc.2.2 ++ ["Line " ++ toString (p.1 + 1) ++ ": " ++ msg])

/-- app.py "import_text" form handler (lines 685-718): strip the text,
split into lines, and process each line in order with 1-based indices;
returns the new backend state, the imported count, and the error list. -/
def text_import_submit (st : Store) (email : String) (text : String) :
    Store × Nat × List String :=
  (splitOnChar '\n' (trimChars text.data)).enum.foldl (text_import_step email) (st, 0, [])

/-- app.py "add_academy_btn" handler (lines 822-830): append the name to
the academy list only when it is nonempty and not already present;
otherwise nothing is written. -/
def add_academy_click (p : Prefs) (name : String) : Prefs :=
  if name ≠ "" ∧ name ∉ p.academies then { p with academies := p.academies ++ [name] } else p

/-- app.py "add_group_btn" handler (lines 864-872): same as the academy
button, for the group list. -/
def add_group_click (p : Prefs) (name : String) : Prefs :=
  if name ≠ "" ∧ name ∉ p.groups then { p with groups := p.groups ++ [name] } else p

/-- Model of pandas Series.unique: the distinct values in first-occurrence
order. -/
def unique_first (l : List String) : List String :=
  l.foldl (fun acc a => if a ∈ acc then acc else acc ++ [a]) []

/-- app.py "Import Academies & Groups from Sessions" handler (lines
914-936): when sessions exist, append to each preference list the distinct
session values not already present, preserving prior order. -/
def sessions_auto_populate (p : Prefs) (sessions : List Session) : Prefs :=
  if sessions ≠ [] then
    let ua := unique_first (sessions.map Session.academy)
    let ug := unique_first (sessions.map Session.group)
    { p with
      academies := p.academies ++ ua.filter (fun a => a ∉ p.academies)
      groups := p.groups ++ ug.filter (fun g => g ∉ p.groups) }
  else p

/-- The preference-list mutations reachable from the Preferences tab. -/
inductive PrefOp where
  | addA : String → PrefOp
  | addG : String → PrefOp
  | autoPopulate : List Session → PrefOp

/-- Apply one preference operation. -/
def apply_pref_op (p : Prefs) : PrefOp → Prefs
  | PrefOp.addA n => add_academy_click p n
  | PrefOp.addG n => add_group_click p n
  | PrefOp.autoPopulate ss => sessions_auto_populate p ss

/-- The amount-consistency invariant of the stored data: every persisted
session's amount equals its hours times its rate. -/
def AmountConsistent (st : Store) : Prop :=
  ∀ p ∈ st.sessions, (p : Nat × Session).2.amount = p.2.hours * p.2.rate

/-- A concrete session record used for evaluation. -/
def session_a : Session :=
  ⟨"u@example.com", "Tech Academy", "AI Group A", 739191, 2, 250, 500, ""⟩

/-- Second concrete session record. -/
def session_b : Session :=
  ⟨"u@example.com", "Data School", "Python Basics", 739192, 3, 200, 600, ""⟩

/-- A concrete nonempty backend used for evaluation. -/
def store1 : Store := ⟨[(0, session_a), (1, session_b)], 2, []⟩

/-- A backend holding one preferences document for a single account. -/
def store2 : Store := ⟨[], 0, [("someone@example.com", ⟨["Tech Academy"], ["AI Group A"], 300⟩)]⟩

/-- Text-import input that carries empty academy and group fields in an
otherwise well-formed line. -/
def c4_text : String := "2024-11-01, , , 2, 250"

/-- The three-line text-import input from the specification: two good
lines and one line with only three fields. -/
def c2_text : String :=
  "2024-11-01, Tech Academy, AI Group A, 2, 250\n2024-11-02, Data School, Python Basics, 3, 200\nbad-line-only-3-fields, x, y"

/-- Shift of a weekday by a number of days. -/
def fin_shift (r : Fin 7) (d : Nat) : Fin 7 := ⟨(r.val + d) % 7, by omega⟩

/-- Appending a session whose amount equals hours times rate preserves the
amount-consistency invariant. -/
theorem save_session_amount (st : Store) (email : String) (f : SessionForm)
    (hst : AmountConsistent st) (hf : f.amount = f.hours * f.rate) :
    AmountConsistent (save_session st email f) := by
  intro p hp
  simp only [save_session, List.mem_append, List.mem_singleton] at hp
  rcases hp with h | h
  · exact hst p h
  · subst h
    simpa [mkSession] using hf

/-- Folding save_session over a list of records whose amounts are
consistent preserves the invariant. -/
theorem foldl_save_amount {α : Type} (email : String) (g : α → SessionForm) :
    ∀ (l : List α), (∀ a ∈ l, (g a).amount = (g a).hours * (g a).rate) →
      ∀ (st : Store), AmountConsistent st →
        AmountConsistent (l.foldl (fun s a => save_session s email (g a)) st)
  | [], _, _, h => h
  | a :: l, hg, st, h => by
    simp only [List.foldl_cons]
    exact foldl_save_amount email g l (fun b hb => hg b (List.mem_cons_of_mem a hb)) _
      (save_session_amount _ _ _ h (hg a (List.mem_cons_self a l)))

/-- A field update whose amount equals hours times rate preserves the
invariant. -/
theorem update_session_amount (st : Store) (id : Nat) (f : SessionForm) (st' : Store)
    (hst : AmountConsistent st) (hf : f.amount = f.hours * f.rate)
    (h : update_session st id f = Except.ok st') : AmountConsistent st' := by
  unfold update_session at h
  split at h
  · cases h
    intro p hp
    simp only at hp
    rcases List.mem_map.mp hp with ⟨q, hq, rfl⟩
    by_cases hid : q.1 = id
    · rw [if_pos hid]
      simpa [mkSession] using hf
    · rw [if_neg hid]
      exact hst q hq
  · exact Except.noConfusion h

/-- A successfully parsed import line always carries
amount = hours * rate. -/
theorem text_import_line_amount {line : List Char} {f : SessionForm}
    (h : text_import_line line = Except.ok f) : f.amount = f.hours * f.rate := by
  simp only [text_import_line] at h
  split at h
  · split at h
    · cases h
      rfl
    · exact Except.noConfusion h
  · exact Except.noConfusion h

/-- The text importer's loop preserves the amount-consistency
invariant. -/
theorem text_fold_amount (email : String) :
    ∀ (l : List (Nat × List Char)) (acc : Store × Nat × List String),
      AmountConsistent acc.1 →
      AmountConsistent ((l.foldl (text_import_step email) acc).1)
  | [], _, h => h
  | p :: l, acc, h => by
    simp only [List.foldl_cons]
    apply text_fold_amount email l
    cases hline : text_import_line p.2 with
    | ok f =>
      simp only [text_import_step, hline]
      exact save_session_amount _ _ _ h (text_import_line_amount hline)
    | error msg =>
      simp only [text_import_step, hline]
      exact h

/-- C1: every write path (sidebar create, edit form, weekly-schedule
generator, multiple-sessions batch, text import) persists
amount = hours × rate for each record it writes, so the stored data's
amount-consistency is preserved by every write; and after a successful
edit the record stored at the edited id carries amount equal to the new
hours times the new rate, never the pre-edit amount. -/
theorem amount_consistency_all_write_paths :
    (∀ st email academy group session_date hours rate notes st',
      AmountConsistent st →
      add_session_submit st email academy group session_date hours rate notes = Except.ok st' →
      AmountConsistent st') ∧
    (∀ st id academy group edit_date hours rate notes st',
      AmountConsistent st →
      edit_session_submit st id academy group edit_date hours rate notes = Except.ok st' →
      AmountConsistent st') ∧
    (∀ st id academy group edit_date hours rate notes st',
      edit_session_submit st id academy group edit_date hours rate notes = Except.ok st' →
      ∀ p ∈ st'.sessions, (p : Nat × Session).1 = id → p.2.amount = hours * rate) ∧
    (∀ st email academy group hours rate notes start_date num_weeks days_selected st',
      AmountConsistent st →
      weekly_schedule_submit st email academy group hours rate notes start_date num_weeks
        days_selected = Except.ok st' →
      AmountConsistent st') ∧
    (∀ st email ms_date entries st',
      AmountConsistent st →
      multiple_sessions_submit st email ms_date entries = Except.ok st' →
      AmountConsistent st') ∧
    (∀ st email text,
      AmountConsistent st → AmountConsistent (text_import_submit st email text).1) := by
  refine ⟨?_, ?_, ?_, ?_, ?_, ?_⟩
  · intro st email academy group session_date hours rate notes st' h1 h2
    unfold add_session_submit at h2
    split at h2
    · cases h2
      exact save_session_amount _ _ _ h1 rfl
    · exact Except.noConfusion h2
  · intro st id academy group edit_date hours rate notes st' h1 h2
    unfold edit_session_submit at h2
    split at h2
    · exact update_session_amount _ _ _ _ h1 rfl h2
    · exact Except.noConfusion h2
  · intro st id academy group edit_date hours rate notes st' h2 p hp hpid
    unfold edit_session_submit at h2
    split at h2
    · unfold update_session at h2
      split at h2
      · cases h2
        simp only at hp
        rcases List.mem_map.mp hp with ⟨q, hq, rfl⟩
        by_cases hid : q.1 = id
        · rw [if_pos hid]
          rfl
        · rw [if_neg hid] at hpid ⊢
          exact absurd hpid hid
      · exact Except.noConfusion h2
    · exact Except.noConfusion h2
  · intro st email academy group hours rate notes start_date num_weeks days_selected st' h1 h2
    unfold weekly_schedule_submit at h2
    split at h2
    · cases h2
      refine foldl_save_amount email (fun f => f) _ ?_ _ h1
      intro f hf
      rcases List.mem_map.mp hf with ⟨d, _, rfl⟩
      rfl
    · exact Except.noConfusion h2
  · intro st email ms_date entries st' h1 h2
    simp only [multiple_sessions_submit] at h2
    split at h2
    · cases h2
      exact foldl_save_amount email
        (fun t : TupleEntry =>
          (⟨t.academy, t.group, ms_date, t.hours, t.rate, t.hours * t.rate, ""⟩ : SessionForm))
        _ (fun a _ => rfl) _ h1
    · exact Except.noConfusion h2
  · intro st email text h
    exact text_fold_amount email _ _ h

/-- C1 witness: the sidebar create path applied to the empty backend
yields an amount-consistent store. -/
theorem amount_consistency_witness :
    AmountConsistent
      (save_session store0 "u@example.com"
        ⟨"Tech Academy", "AI Group A", 739191, 2, 250, 2 * 250, ""⟩) :=
  amount_consistency_all_write_paths.1 store0 "u@example.com" "Tech Academy" "AI Group A"
    739191 2 250 "" _ (fun p hp => absurd hp (List.not_mem_nil p)) rfl




/-- C3 counterexample: deleting id 99, which is not present in store1,
yields no NotFoundError — the Firestore delete returns successfully and
the repository is unchanged. -/
theorem delete_missing_id_no_error :
    delete_session store1 99 = Except.ok store1 := rfl

/-- C3 (amended): deleting an id that no stored session carries is a
silent no-op: the operation succeeds without any error and the repository
is unchanged, every previously existing record still present and
unmodified. -/
theorem delete_missing_id_noop :
    ∀ (st : Store) (id : Nat), (∀ p ∈ st.sessions, (p : Nat × Session).1 ≠ id) →
      delete_session st id = Except.ok st := by
  intro st id h
  unfold delete_session
  have heq : st.sessions.filter (fun p => decide (p.1 ≠ id)) = st.sessions :=
    List.filter_eq_self.mpr (fun a ha => by simpa using h a ha)
  rw [heq]

/-- C3 witness: the amended no-op statement evaluated on store1 and the
absent id 99. -/
theorem delete_missing_id_noop_witness :
    (∀ p ∈ store1.sessions, (p : Nat × Session).1 ≠ 99) ∧
      delete_session store1 99 = Except.ok store1 :=
  ⟨by decide, delete_missing_id_noop store1 99 (by decide)⟩

/-- The lookup of a key absent from an association list is none. -/
theorem lookup_eq_none_of_keys {email : String} :
    ∀ (l : List (String × Prefs)), (∀ q ∈ l, q.1 ≠ email) → l.lookup email = none
  | [], _ => rfl
  | (k, v) :: l, h => by
    have hk : k ≠ email := h (k, v) (List.mem_cons_self _ _)
    have hbeq : (email == k) = false := beq_eq_false_iff_ne.mpr (Ne.symm hk)
    simp only [List.lookup, hbeq]
    exact lookup_eq_none_of_keys l (fun q hq => h q (List.mem_cons_of_mem _ hq))

/-- C9: for an email with no stored preferences document, load_preferences
returns exactly the defaults — empty academies, empty groups, default rate
200 — and not an error. -/
theorem load_preferences_defaults :
    ∀ (st : Store) (email : String),
      (∀ q ∈ st.preferences, (q : String × Prefs).1 ≠ email) →
      (load_preferences st email).1 = ⟨[], [], 200⟩ := by
  intro st email h
  unfold load_preferences
  rw [lookup_eq_none_of_keys st.preferences h]


/-- C9 witness: loading preferences of an account with no stored document
in store2 yields the defaults. -/
theorem load_preferences_defaults_witness :
    (∀ q ∈ store2.preferences, (q : String × Prefs).1 ≠ "nobody@example.com") ∧
      (load_preferences store2 "nobody@example.com").1 = ⟨[], [], 200⟩ :=
  ⟨by decide, load_preferences_defaults store2 "nobody@example.com" (by decide)⟩

/-- C10: load_preferences never writes: the backend state after the call
is exactly the state before it, so in particular no preferences document
is created for an account that has none, and the session documents are
untouched. -/
theorem load_preferences_no_write :
    ∀ (st : Store) (email : String),
      (load_preferences st email).2 = st ∧
        ((load_preferences st email).2).preferences = st.preferences ∧
        ((load_preferences st email).2).sessions = st.sessions := by
  intro st email
  unfold load_preferences
  rcases st.preferences.lookup email with _ | p <;> exact ⟨rfl, rfl, rfl⟩


/-- C4 counterexample: the text importer performs no emptiness check — on
a line whose academy and group fields are empty it persists the record
(one session stored, with empty academy and group) and reports success
with no error. -/
theorem text_import_accepts_empty_academy :
    (text_import_submit store0 "u@example.com" c4_text).1.sessions.map
        (fun p => (p : Nat × Session).2.academy) = [""] ∧
      (text_import_submit store0 "u@example.com" c4_text).1.sessions.map
        (fun p => (p : Nat × Session).2.group) = [""] ∧
      (text_import_submit store0 "u@example.com" c4_text).2 = (1, []) := by
  refine ⟨?_, ?_, ?_⟩ <;> decide

/-- Any session present after folding save_session over a list of records
is either an old session or one of the newly written records. -/
theorem foldl_save_mem {α : Type} (email : String) (g : α → SessionForm) :
    ∀ (l : List α) (st : Store) (p : Nat × Session),
      p ∈ (l.foldl (fun s a => save_session s email (g a)) st).sessions →
      p ∈ st.sessions ∨ ∃ a ∈ l, p.2 = mkSession email (g a)
  | [], _, _, hp => Or.inl hp
  | a :: l, st, p, hp => by
    simp only [List.foldl_cons] at hp
    rcases foldl_save_mem email g l _ p hp with h | ⟨b, hb, hpb⟩
    · simp only [save_session, List.mem_append, List.mem_singleton] at h
      rcases h with h | h
      · exact Or.inl h
      · exact Or.inr ⟨a, List.mem_cons_self a l, by rw [h]⟩
    · exact Or.inr ⟨b, List.mem_cons_of_mem a hb, hpb⟩

/-- C4 (amended): the sidebar create, edit and weekly-schedule handlers
reject a record with empty academy or empty group with a validation error
(persisting nothing), and the multiple-sessions batch never persists such
a tuple; the text importer, however, performs no emptiness check (see the
counterexample), so the property does not extend to it. -/
theorem empty_academy_group_validation :
    (∀ st email academy group session_date hours rate notes,
      academy = "" ∨ group = "" →
      add_session_submit st email academy group session_date hours rate notes =
        Except.error "⚠️ Fill required fields!") ∧
    (∀ st id academy group edit_date hours rate notes,
      academy = "" ∨ group = "" →
      edit_session_submit st id academy group edit_date hours rate notes =
        Except.error "⚠️ Fill required fields!") ∧
    (∀ st email academy group hours rate notes start_date num_weeks days_selected,
      academy = "" ∨ group = "" →
      weekly_schedule_submit st email academy group hours rate notes start_date num_weeks
        days_selected =
        Except.error "⚠️ Fill all required fields and select at least one day!") ∧
    (∀ st email ms_date entries st',
      multiple_sessions_submit st email ms_date entries = Except.ok st' →
      ∀ p ∈ st'.sessions,
        p ∈ st.sessions ∨ ((p : Nat × Session).2.academy ≠ "" ∧ p.2.group ≠ "")) := by
  refine ⟨?_, ?_, ?_, ?_⟩
  · intro st email academy group session_date hours rate notes h
    rcases h with h | h <;> simp [add_session_submit, h]
  · intro st id academy group edit_date hours rate notes h
    rcases h with h | h <;> simp [edit_session_submit, h]
  · intro st email academy group hours rate notes start_date num_weeks days_selected h
    rcases h with h | h <;> simp [weekly_schedule_submit, h]
  · intro st email ms_date entries st' h p hp
    simp only [multiple_sessions_submit] at h
    split at h
    · cases h
      rcases foldl_save_mem email
          (fun t : TupleEntry =>
            (⟨t.academy, t.group, ms_date, t.hours, t.rate, t.hours * t.rate, ""⟩ : SessionForm))
          _ st p hp with hold | ⟨t, ht, hpt⟩
      · exact Or.inl hold
      · have ht' : t.academy ≠ "" ∧ t.group ≠ "" := by
          simpa using (List.mem_filter.mp ht).2
        refine Or.inr ?_
        rw [hpt]
        exact ht'
    · exact Except.noConfusion h

/-- C4 witness: the sidebar create path rejects an empty academy on the
empty backend. -/
theorem empty_academy_group_validation_witness :
    (("" : String) = "" ∨ ("AI Group A" : String) = "") ∧
      add_session_submit store0 "u@example.com" "" "AI Group A" 739191 2 250 "" =
        Except.error "⚠️ Fill required fields!" :=
  ⟨Or.inl rfl,
    empty_academy_group_validation.1 store0 "u@example.com" "" "AI Group A" 739191 2 250 ""
      (Or.inl rfl)⟩

/-- The sessions present after folding save_session are the old sessions
followed by the new records, in write order. -/
theorem foldl_save_sessions {α : Type} (email : String) (g : α → SessionForm) :
    ∀ (l : List α) (st : Store),
      ((l.foldl (fun s a => save_session s email (g a)) st).sessions).map Prod.snd =
        st.sessions.map Prod.snd ++ l.map (fun a => mkSession email (g a))
  | [], st => by simp
  | a :: l, st => by
    simp only [List.foldl_cons, List.map_cons]
    rw [foldl_save_sessions email g l]
    simp [save_session]

/-- C7: the multiple-sessions batch persists exactly the entered tuples
whose academy and group are both nonempty, in order, each dated with the
shared date and carrying amount = hours × rate; the remaining tuples are
excluded without any error being attached to them (the handler returns
plain success). -/
theorem multiple_sessions_behavior :
    ∀ (st : Store) (email : String) (ms_date : Nat) (entries : List TupleEntry),
      entries.filter (fun t => t.academy ≠ "" ∧ t.group ≠ "") ≠ [] →
      ∃ st', multiple_sessions_submit st email ms_date entries = Except.ok st' ∧
        st'.sessions.map Prod.snd = st.sessions.map Prod.snd ++
          (entries.filter (fun t => t.academy ≠ "" ∧ t.group ≠ "")).map
            (fun t => mkSession email
              ⟨t.academy, t.group, ms_date, t.hours, t.rate, t.hours * t.rate, ""⟩) ∧
        ∀ s ∈ (entries.filter (fun t => t.academy ≠ "" ∧ t.group ≠ "")).map
            (fun t => mkSession email
              ⟨t.academy, t.group, ms_date, t.hours, t.rate, t.hours * t.rate, ""⟩),
          s.date = ms_date ∧ s.amount = s.hours * s.rate ∧ s.academy ≠ "" ∧ s.group ≠ "" := by
  intro st email ms_date entries hvalid
  refine ⟨(entries.filter (fun t => t.academy ≠ "" ∧ t.group ≠ "")).foldl
      (fun s t => save_session s email
        ⟨t.academy, t.group, ms_date, t.hours, t.rate, t.hours * t.rate, ""⟩) st, ?_, ?_, ?_⟩
  · simp only [multiple_sessions_submit]
    rw [if_pos hvalid]
  · exact foldl_save_sessions email
      (fun t : TupleEntry =>
        (⟨t.academy, t.group, ms_date, t.hours, t.rate, t.hours * t.rate, ""⟩ : SessionForm)) _ st
  · intro s hs
    rcases List.mem_map.mp hs with ⟨t, ht, rfl⟩
    have ht' : t.academy ≠ "" ∧ t.group ≠ "" := by
      simpa using (List.mem_filter.mp ht).2
    exact ⟨rfl, rfl, ht'.1, ht'.2⟩

/-- C7 witness: a two-tuple batch where the second tuple has an empty
academy persists exactly the first tuple. -/
theorem multiple_sessions_behavior_witness :
    ([⟨"Tech Academy", "AI Group A", 2, 250⟩,
        ⟨"", "AI Group A", 1, 100⟩] : List TupleEntry).filter
        (fun t => t.academy ≠ "" ∧ t.group ≠ "") ≠ [] ∧
      (∃ st', multiple_sessions_submit store0 "u@example.com" 739191
          [⟨"Tech Academy", "AI Group A", 2, 250⟩, ⟨"", "AI Group A", 1, 100⟩] =
          Except.ok st' ∧
        st'.sessions.map Prod.snd = store0.sessions.map Prod.snd ++
          (([⟨"Tech Academy", "AI Group A", 2, 250⟩,
              ⟨"", "AI Group A", 1, 100⟩] : List TupleEntry).filter
            (fun t => t.academy ≠ "" ∧ t.group ≠ "")).map
            (fun t => mkSession "u@example.com"
              ⟨t.academy, t.group, 739191, t.hours, t.rate, t.hours * t.rate, ""⟩) ∧
        ∀ s ∈ (([⟨"Tech Academy", "AI Group A", 2, 250⟩,
              ⟨"", "AI Group A", 1, 100⟩] : List TupleEntry).filter
            (fun t => t.academy ≠ "" ∧ t.group ≠ "")).map
            (fun t => mkSession "u@example.com"
              ⟨t.academy, t.group, 739191, t.hours, t.rate, t.hours * t.rate, ""⟩),
          s.date = 739191 ∧ s.amount = s.hours * s.rate ∧ s.academy ≠ "" ∧ s.group ≠ "") :=
  ⟨by decide,
    multiple_sessions_behavior store0 "u@example.com" 739191
      [⟨"Tech Academy", "AI Group A", 2, 250⟩, ⟨"", "AI Group A", 1, 100⟩] (by decide)⟩

/-- C5: the weekly generator with start date 2024-11-01 (a Friday), two
weeks, and days {Friday, Monday} (Python weekday numbers 4 and 0)
produces exactly four sessions dated 2024-11-01, 2024-11-04, 2024-11-08
and 2024-11-11, each with the input academy, group, hours and rate. -/
theorem weekly_schedule_example :
    weekly_session_forms "Tech Academy" "AI Group A" 2 250 "" (ymd2ord 2024 11 1) 2
        ({4, 0} : Finset (Fin 7)) =
      [⟨"Tech Academy", "AI Group A", ymd2ord 2024 11 1, 2, 250, 500, ""⟩,
       ⟨"Tech Academy", "AI Group A", ymd2ord 2024 11 4, 2, 250, 500, ""⟩,
       ⟨"Tech Academy", "AI Group A", ymd2ord 2024 11 8, 2, 250, 500, ""⟩,
       ⟨"Tech Academy", "AI Group A", ymd2ord 2024 11 11, 2, 250, 500, ""⟩] := by
  have hdates : weekly_dates (ymd2ord 2024 11 1) 2 ({4, 0} : Finset (Fin 7)) =
      [ymd2ord 2024 11 1, ymd2ord 2024 11 4, ymd2ord 2024 11 8, ymd2ord 2024 11 11] := by
    decide
  rw [weekly_session_forms, hdates]
  simp
  norm_num


/-- C2: importing the three-line input persists exactly the two sessions
of the first two lines (amounts 500 and 600), counts 2 imported, and
records exactly one line-indexed error, for line 3; the bad third line
does not prevent the first two from being imported. -/
theorem text_import_example :
    text_import_submit store0 "importer@example.com" c2_text =
      (⟨[(0, ⟨"importer@example.com", "Tech Academy", "AI Group A", ymd2ord 2024 11 1,
              2, 250, 500, ""⟩),
         (1, ⟨"importer@example.com", "Data School", "Python Basics", ymd2ord 2024 11 2,
              3, 200, 600, ""⟩)], 2, []⟩,
        2, ["Line 3: Not enough fields"]) := by
  simp +decide [text_import_submit, text_import_step, text_import_line, parse_date_chars,
    parseRatChars, parseNatChars, splitOnChar, trimChars, isSpaceChar, daysInMonth, isLeapYear,
    c2_text, store0, save_session, mkSession, List.enum, List.enumFrom]
  norm_num

/-- Appending an element absent from a duplicate-free list keeps the list
duplicate-free. -/
theorem append_singleton_nodup {l : List String} {a : String}
    (h1 : l.Nodup) (h2 : a ∉ l) : (l ++ [a]).Nodup := by
  refine List.nodup_append.mpr ⟨h1, List.nodup_singleton a, ?_⟩
  intro x hx hxa
  rw [List.mem_singleton] at hxa
  exact h2 (hxa ▸ hx)

/-- The academy-add button keeps the academy list duplicate-free. -/
theorem add_academy_nodup (p : Prefs) (n : String) (h : p.academies.Nodup) :
    (add_academy_click p n).academies.Nodup := by
  unfold add_academy_click
  split
  · next hc => exact append_singleton_nodup h hc.2
  · exact h

/-- The academy-add button does not change the group list. -/
theorem add_academy_groups (p : Prefs) (n : String) :
    (add_academy_click p n).groups = p.groups := by
  unfold add_academy_click
  split <;> rfl

/-- The group-add button keeps the group list duplicate-free. -/
theorem add_group_nodup (p : Prefs) (n : String) (h : p.groups.Nodup) :
    (add_group_click p n).groups.Nodup := by
  unfold add_group_click
  split
  · next hc => exact append_singleton_nodup h hc.2
  · exact h

/-- The group-add button does not change the academy list. -/
theorem add_group_academies (p : Prefs) (n : String) :
    (add_group_click p n).academies = p.academies := by
  unfold add_group_click
  split <;> rfl

/-- The first-occurrence dedup fold yields a duplicate-free list from any
duplicate-free accumulator. -/
theorem unique_fold_nodup :
    ∀ (l : List String) (acc : List String), acc.Nodup →
      (l.foldl (fun acc a => if a ∈ acc then acc else acc ++ [a]) acc).Nodup
  | [], _, h => h
  | a :: l, acc, h => by
    simp only [List.foldl_cons]
    apply unique_fold_nodup l
    split
    · exact h
    · next hna => exact append_singleton_nodup h hna

/-- unique_first always produces a duplicate-free list. -/
theorem unique_first_nodup (l : List String) : (unique_first l).Nodup :=
  unique_fold_nodup l [] List.nodup_nil

/-- The auto-populate handler keeps both preference lists
duplicate-free. -/
theorem auto_populate_nodup (p : Prefs) (ss : List Session)
    (ha : p.academies.Nodup) (hg : p.groups.Nodup) :
    (sessions_auto_populate p ss).academies.Nodup ∧
      (sessions_auto_populate p ss).groups.Nodup := by
  unfold sessions_auto_populate
  split
  · constructor
    · refine List.nodup_append.mpr ⟨ha, (unique_first_nodup _).filter _, ?_⟩
      intro x hx hxf
      have hmem := (List.mem_filter.mp hxf).2
      simp only [decide_not, Bool.not_eq_true', decide_eq_false_iff_not] at hmem
      exact hmem hx
    · refine List.nodup_append.mpr ⟨hg, (unique_first_nodup _).filter _, ?_⟩
      intro x hx hxf
      have hmem := (List.mem_filter.mp hxf).2
      simp only [decide_not, Bool.not_eq_true', decide_eq_false_iff_not] at hmem
      exact hmem hx
  · exact ⟨ha, hg⟩

/-- Every reachable preference operation keeps both lists
duplicate-free. -/
theorem apply_pref_op_nodup (p : Prefs) (op : PrefOp)
    (ha : p.academies.Nodup) (hg : p.groups.Nodup) :
    (apply_pref_op p op).academies.Nodup ∧ (apply_pref_op p op).groups.Nodup := by
  cases op with
  | addA n =>
    simp only [apply_pref_op]
    exact ⟨add_academy_nodup p n ha, by rw [add_academy_groups]; exact hg⟩
  | addG n =>
    simp only [apply_pref_op]
    exact ⟨by rw [add_group_academies]; exact ha, add_group_nodup p n hg⟩
  | autoPopulate ss =>
    simp only [apply_pref_op]
    exact auto_populate_nodup p ss ha hg

/-- C8: starting from duplicate-free preference lists, any sequence of
academy-add, group-add and import-from-sessions operations leaves both
lists duplicate-free; and adding a name that is already present is a
no-op on the stored record. -/
theorem preference_lists_nodup :
    (∀ (p : Prefs) (ops : List PrefOp), p.academies.Nodup → p.groups.Nodup →
      (ops.foldl apply_pref_op p).academies.Nodup ∧
        (ops.foldl apply_pref_op p).groups.Nodup) ∧
    (∀ (p : Prefs) (n : String), n ∈ p.academies → add_academy_click p n = p) ∧
    (∀ (p : Prefs) (n : String), n ∈ p.groups → add_group_click p n = p) := by
  refine ⟨?_, ?_, ?_⟩
  · intro p ops
    induction ops generalizing p with
    | nil => intro ha hg; exact ⟨ha, hg⟩
    | cons op ops ih =>
      intro ha hg
      simp only [List.foldl_cons]
      have h := apply_pref_op_nodup p op ha hg
      exact ih _ h.1 h.2
  · intro p n h
    unfold add_academy_click
    exact if_neg (fun hc => hc.2 h)
  · intro p n h
    unfold add_group_click
    exact if_neg (fun hc => hc.2 h)

/-- C8 witness: a concrete operation sequence with a repeated academy add
on the default preferences yields duplicate-free lists. -/
theorem preference_lists_nodup_witness :
    (([PrefOp.addA "Tech Academy", PrefOp.addA "Tech Academy", PrefOp.addG "AI Group A",
        PrefOp.autoPopulate [session_a]].foldl apply_pref_op ⟨[], [], 200⟩).academies.Nodup ∧
      ([PrefOp.addA "Tech Academy", PrefOp.addA "Tech Academy", PrefOp.addG "AI Group A",
        PrefOp.autoPopulate [session_a]].foldl apply_pref_op ⟨[], [], 200⟩).groups.Nodup) :=
  preference_lists_nodup.1 ⟨[], [], 200⟩
    [PrefOp.addA "Tech Academy", PrefOp.addA "Tech Academy", PrefOp.addG "AI Group A",
      PrefOp.autoPopulate [session_a]] List.nodup_nil List.nodup_nil


set_option maxRecDepth 10000 in
/-- Scanning seven consecutive day offsets hits every weekday exactly
once, so the number of hits in any selected weekday set equals its
cardinality. -/
theorem countP_fin_shift : ∀ (r : Fin 7) (D : Finset (Fin 7)),
    (List.range 7).countP (fun d => decide (fin_shift r d ∈ D)) = D.card := by decide

/-- Weekday of a shifted ordinal, expressed through fin_shift. -/
theorem weekday_add (o d : Nat) : weekday (o + d) = fin_shift (weekday o) d := by
  apply Fin.ext
  simp only [weekday, fin_shift]
  omega

/-- Each one-week scan keeps exactly card-many dates. -/
theorem week_filter_length (s off : Nat) (D : Finset (Fin 7)) :
    (((List.range 7).map (fun day_num => s + (day_num + off))).filter
      (fun check_date => weekday check_date ∈ D)).length = D.card := by
  rw [← List.countP_eq_length_filter, List.countP_map]
  have hcongr : ∀ dn ∈ List.range 7,
      ((fun check_date => decide (weekday check_date ∈ D)) ∘
        (fun day_num => s + (day_num + off))) dn = true ↔
      (fun d => decide (fin_shift (weekday (s + off)) d ∈ D)) dn = true := by
    intro dn _
    have harg : s + (dn + off) = (s + off) + dn := by omega
    simp only [Function.comp, harg, weekday_add]
  rw [List.countP_congr hcongr]
  exact countP_fin_shift (weekday (s + off)) D

/-- Each one-week scan produces strictly increasing dates. -/
theorem week_filter_sorted (s off : Nat) (D : Finset (Fin 7)) :
    (((List.range 7).map (fun day_num => s + (day_num + off))).filter
      (fun check_date => weekday check_date ∈ D)).Pairwise (· < ·) := by
  apply List.Pairwise.filter
  refine List.pairwise_map.mpr ?_
  refine (List.pairwise_lt_range 7).imp ?_
  intro a b hab
  omega

/-- Dates kept by a one-week scan lie in that week's range. -/
theorem week_filter_mem (s off : Nat) (D : Finset (Fin 7)) {x : Nat}
    (hx : x ∈ ((List.range 7).map (fun day_num => s + (day_num + off))).filter
      (fun check_date => weekday check_date ∈ D)) :
    s + off ≤ x ∧ x < s + off + 7 := by
  rcases List.mem_filter.mp hx with ⟨hm, _⟩
  rcases List.mem_map.mp hm with ⟨dn, hdn, rfl⟩
  have := List.mem_range.mp hdn
  omega

/-- Peeling off the last week of the generation loop. -/
theorem weekly_dates_succ (s w : Nat) (D : Finset (Fin 7)) :
    weekly_dates s (w + 1) D = weekly_dates s w D ++
      ((List.range 7).map (fun day_num => s + (day_num + w * 7))).filter
        (fun check_date => weekday check_date ∈ D) := by
  unfold weekly_dates
  rw [List.range_succ, List.flatMap_append]
  simp

/-- The generator emits exactly weeks × card dates. -/
theorem weekly_dates_length (s : Nat) (D : Finset (Fin 7)) :
    ∀ w, (weekly_dates s w D).length = w * D.card
  | 0 => by simp [weekly_dates]
  | w + 1 => by
    rw [weekly_dates_succ, List.length_append, weekly_dates_length s D w,
      week_filter_length, Nat.succ_mul]

/-- The generated dates are strictly increasing and lie within the
covered week span. -/
theorem weekly_dates_sorted_bound (s : Nat) (D : Finset (Fin 7)) :
    ∀ w, (weekly_dates s w D).Pairwise (· < ·) ∧
      ∀ x ∈ weekly_dates s w D, s ≤ x ∧ x < s + 7 * w
  | 0 => ⟨by simp [weekly_dates], by simp [weekly_dates]⟩
  | w + 1 => by
    obtain ⟨hp, hb⟩ := weekly_dates_sorted_bound s D w
    rw [weekly_dates_succ]
    constructor
    · refine List.pairwise_append.mpr ⟨hp, week_filter_sorted s (w * 7) D, ?_⟩
      intro a ha b hb'
      have h1 := (hb a ha).2
      have h2 := (week_filter_mem s (w * 7) D hb').1
      omega
    · intro x hx
      rcases List.mem_append.mp hx with h | h
      · have := hb x h
        omega
      · have := week_filter_mem s (w * 7) D h
        omega

/-- Every generated date's weekday is in the selected set. -/
theorem weekly_dates_mem_weekday (s : Nat) (D : Finset (Fin 7)) :
    ∀ w, ∀ x ∈ weekly_dates s w D, weekday x ∈ D
  | 0 => by simp [weekly_dates]
  | w + 1 => by
    intro x hx
    rw [weekly_dates_succ] at hx
    rcases List.mem_append.mp hx with h | h
    · exact weekly_dates_mem_weekday s D w x h
    · have := (List.mem_filter.mp h).2
      simpa using this

/-- C6: for nonempty academy and group, at least one week and a nonempty
weekday selection, the weekly generator succeeds and produces exactly
weeks × |selected| sessions — one per (week, weekday) combination — in
strictly ascending date order, each date's weekday lying in the selected
set and each session carrying the shared academy, group, hours and rate;
the persisted store appends exactly these sessions in order. -/
theorem weekly_schedule_general :
    ∀ (st : Store) (email academy group : String) (hours rate : ℚ) (notes : String)
      (start_date num_weeks : Nat) (days_selected : Finset (Fin 7)),
      academy ≠ "" → group ≠ "" → 1 ≤ num_weeks → days_selected ≠ ∅ →
      ∃ st',
        weekly_schedule_submit st email academy group hours rate notes start_date num_weeks
          days_selected = Except.ok st' ∧
        (weekly_dates start_date num_weeks days_selected).length =
          num_weeks * days_selected.card ∧
        (weekly_dates start_date num_weeks days_selected).Pairwise (· < ·) ∧
        (∀ x ∈ weekly_dates start_date num_weeks days_selected,
          weekday x ∈ days_selected ∧ start_date ≤ x ∧ x < start_date + 7 * num_weeks) ∧
        (weekly_session_forms academy group hours rate notes start_date num_weeks
            days_selected).map SessionForm.date =
          weekly_dates start_date num_weeks days_selected ∧
        (∀ f ∈ weekly_session_forms academy group hours rate notes start_date num_weeks
            days_selected,
          f.academy = academy ∧ f.group = group ∧ f.hours = hours ∧ f.rate = rate) ∧
        st'.sessions.map Prod.snd = st.sessions.map Prod.snd ++
          (weekly_session_forms academy group hours rate notes start_date num_weeks
            days_selected).map (mkSession email) := by
  intro st email academy group hours rate notes start_date num_weeks days_selected ha hg hw hd
  refine ⟨(weekly_session_forms academy group hours rate notes start_date num_weeks
      days_selected).foldl (fun s f => save_session s email f) st, ?_, weekly_dates_length _ _ _,
    (weekly_dates_sorted_bound _ _ _).1, ?_, ?_, ?_, ?_⟩
  · simp only [weekly_schedule_submit]
    rw [if_pos ⟨ha, hg, hd⟩]
  · intro x hx
    exact ⟨weekly_dates_mem_weekday _ _ _ x hx,
      (weekly_dates_sorted_bound _ _ _).2 x hx⟩
  · rw [weekly_session_forms, List.map_map]
    have hcomp : (SessionForm.date ∘ fun d : Nat =>
        (⟨academy, group, d, hours, rate, hours * rate, notes⟩ : SessionForm)) = id := rfl
    rw [hcomp, List.map_id]
  · intro f hf
    rcases List.mem_map.mp hf with ⟨d, _, rfl⟩
    exact ⟨rfl, rfl, rfl, rfl⟩
  · exact foldl_save_sessions email (fun f => f) _ st

/-- C6 witness: the general weekly-generator statement evaluated on the
empty backend with one week and Monday selected. -/
theorem weekly_schedule_general_witness :
    (("Tech Academy" : String) ≠ "" ∧ ("AI Group A" : String) ≠ "" ∧ 1 ≤ 1 ∧
      ({0} : Finset (Fin 7)) ≠ ∅) ∧
    (∃ st',
      weekly_schedule_submit store0 "u@example.com" "Tech Academy" "AI Group A" 2 250 ""
        739191 1 ({0} : Finset (Fin 7)) = Except.ok st' ∧
      (weekly_dates 739191 1 ({0} : Finset (Fin 7))).length =
        1 * ({0} : Finset (Fin 7)).card ∧
      (weekly_dates 739191 1 ({0} : Finset (Fin 7))).Pairwise (· < ·) ∧
      (∀ x ∈ weekly_dates 739191 1 ({0} : Finset (Fin 7)),
        weekday x ∈ ({0} : Finset (Fin 7)) ∧ 739191 ≤ x ∧ x < 739191 + 7 * 1) ∧
      (weekly_session_forms "Tech Academy" "AI Group A" 2 250 "" 739191 1
          ({0} : Finset (Fin 7))).map SessionForm.date =
        weekly_dates 739191 1 ({0} : Finset (Fin 7)) ∧
      (∀ f ∈ weekly_session_forms "Tech Academy" "AI Group A" 2 250 "" 739191 1
          ({0} : Finset (Fin 7)),
        f.academy = "Tech Academy" ∧ f.group = "AI Group A" ∧ f.hours = 2 ∧ f.rate = 250) ∧
      st'.sessions.map Prod.snd = store0.sessions.map Prod.snd ++
        (weekly_session_forms "Tech Academy" "AI Group A" 2 250 "" 739191 1
          ({0} : Finset (Fin 7))).map (mkSession "u@example.com")) :=
  ⟨⟨by decide, by decide, by decide, by decide⟩,
    weekly_schedule_general store0 "u@example.com" "Tech Academy" "AI Group A" 2 250 ""
      739191 1 ({0} : Finset (Fin 7)) (by decide) (by decide) (by decide) (by decide)⟩
